import Mathlib

/-!
Verification of the pundler requirement-locking engine (`src/pundler/core.py`).

The Python source is shallowly embedded: the line source `get_requirements`,
the resolution loop of `Pundler.process_requirements`, and the lock-file
writer are translated into executable Lean functions.  The external pip
machinery (PackageFinder / RequirementSet / install) is abstracted as a
resolver function returning, per requirement line, the data the loop at
lines 109-117 of `core.py` inspects: the `requirements.values()` packages
and the `successfully_installed` packages.  The resolver takes the position
of the line in the processed-line stream as an extra argument so that a
stateful external resolver (one whose answer changes between calls, e.g.
because earlier calls installed packages) is expressible.  Failure of the
resolver (`pip` raising) is modelled with `Except Unit`.

Python string primitives used by the source (`strip`, `startswith`,
`lower`, `replace`) are modelled explicitly on the character lists so that
everything evaluates by `decide`/`rfl`.
-/

set_option autoImplicit false

namespace Pundler

/-- The characters Python's `str.strip()` removes (ASCII whitespace). -/
def pyIsSpace (c : Char) : Bool :=
  c = ' ' || c = '\t' || c = '\n' || c = '\r' || c = '\x0b' || c = '\x0c'

/-- Python `line.strip()`: drop whitespace from both ends. -/
def pyStrip (s : String) : String :=
  ⟨(((s.data.dropWhile pyIsSpace).reverse).dropWhile pyIsSpace).reverse⟩

/-- Boolean test that `pat` is a leading segment of `s` (character lists). -/
def isPre : List Char → List Char → Bool
  | [], _ => true
  | _ :: _, [] => false
  | a :: ps, b :: ss => a = b && isPre ps ss

/-- Boolean test that `pat` occurs as a contiguous run somewhere in `s`. -/
def occursIn (pat : List Char) : List Char → Bool
  | [] => isPre pat []
  | c :: rest => isPre pat (c :: rest) || occursIn pat rest

/-- Python `s.startswith(pre)`. -/
def pyStartsWith (s pre : String) : Bool :=
  isPre pre.data s.data

/-- Python `s.endswith(suf)`. -/
def pyEndsWith (s suf : String) : Bool :=
  isPre suf.data.reverse s.data.reverse

/-- Python `s.lower()` (ASCII model). -/
def pyLower (s : String) : String :=
  ⟨s.data.map Char.toLower⟩

/-- Worker for Python `s.replace(pat, rep)`.  In state `0` it scans for the
next occurrence of `pat`; after emitting `rep` it enters state
`pat.length - 1` to skip the rest of the matched run (the first matched
character is consumed by the scan step itself).  An empty `pat` never
matches here; the source only ever uses the non-empty pattern `".in"`. -/
def replaceCore (pat rep : List Char) : List Char → Nat → List Char
  | [], _ => []
  | c :: rest, 0 =>
    if pat ≠ [] ∧ isPre pat (c :: rest) then
      rep ++ replaceCore pat rep rest (pat.length - 1)
    else
      c :: replaceCore pat rep rest 0
  | _ :: rest, skip + 1 => replaceCore pat rep rest skip

/-- Python `s.replace(pat, rep)`: replace every non-overlapping occurrence,
scanning left to right. -/
def pyReplace (s pat rep : String) : String :=
  ⟨replaceCore pat.data rep.data s.data 0⟩

/-- `get_requirements` (core.py lines 48-55): strip each raw line, skip the
line when the stripped form starts with `#` or is empty, otherwise yield the
stripped line.  The file is modelled as its list of raw lines. -/
def getRequirements (rawLines : List String) : List String :=
  rawLines.filterMap fun raw =>
    let line := pyStrip raw
    if pyStartsWith line "#" || line.isEmpty then none else some line

/-- A pip package as inspected by `process_requirements` (core.py lines
109-117): its name, its installed version, whether `package.satisfied_by`
is set, and whether that distribution has `PKG-INFO` / `METADATA`
metadata. -/
structure Package where
  name : String
  installed_version : String
  satisfied_by : Bool
  has_pkg_info : Bool
  has_metadata_file : Bool
deriving DecidableEq, Repr

/-- The part of a pip `RequirementSet` the loop reads after
`prepare_files`/`install`: `requirements.values()` and
`successfully_installed`. -/
structure RequirementSet where
  requirements : List Package
  successfully_installed : List Package
deriving DecidableEq, Repr

/-- `"%s==%s" % (package.name, package.installed_version)`. -/
def formatDep (p : Package) : String :=
  p.name ++ "==" ++ p.installed_version

/-- core.py lines 109-119: collect `name==version` for every requirement
package that is satisfied and has `PKG-INFO` or `METADATA` metadata, then
for every successfully installed package, and apply Python's
`set(...)` (modelled as duplicate removal; Python leaves the iteration
order of the resulting `set` unspecified, so one order is fixed here). -/
def collectDeps (rs : RequirementSet) : List String :=
  (((rs.requirements.filter fun p =>
      p.satisfied_by && (p.has_pkg_info || p.has_metadata_file)).map formatDep)
    ++ rs.successfully_installed.map formatDep).dedup

/-- Insertion-ordered mapping from requirement line to its dependency
list, mirroring Python's `OrderedDict`: the requirement lines are the keys,
in first-insertion order. -/
abbrev Deps := List (String × List String)

/-- `OrderedDict` assignment `d[k] = v`: overwrite the value at an existing
key in place (the key keeps its original position), else append the new
key at the end. -/
def odInsert (d : Deps) (k : String) (v : List String) : Deps :=
  match d with
  | [] => [(k, v)]
  | (k', v') :: rest => if k' = k then (k, v) :: rest else (k', v') :: odInsert rest k v

/-- The mutable attributes of a `Pundler` instance that the engine reads
and writes: `self.deps` and `self.args` (core.py lines 60-61). -/
structure PundlerSt where
  deps : Deps
  args : List String
deriving DecidableEq, Repr

/-- The state `Pundler.__init__` establishes: empty `deps`, empty `args`. -/
def initSt : PundlerSt := ⟨[], []⟩

/-- The external resolution backend: given the position of the line in the
processed-line stream and the line itself, either fail (pip raising) or
return the `RequirementSet` data the loop inspects. -/
abbrev Resolver := Nat → String → Except Unit RequirementSet

/-- The loop of `process_requirements` (core.py lines 93-119): directives
(lines starting with `-`) are appended to `self.args`; any other line is
registered in `self.deps` (first `self.deps[line] = []`, then, after a
successful resolution, `self.deps[line]` is overwritten with the collected
dependency set).  A resolver failure aborts the whole loop. -/
def processLines (resolve : Resolver) : Nat → PundlerSt → List String → Except Unit PundlerSt
  | _, st, [] => .ok st
  | i, st, line :: rest =>
    if pyStartsWith line "-" then
      processLines resolve (i + 1) { st with args := st.args ++ [line] } rest
    else
      let st' := { st with deps := odInsert st.deps line [] }
      match resolve i line with
      | .error e => .error e
      | .ok rs =>
        processLines resolve (i + 1)
          { st' with deps := odInsert st'.deps line (collectDeps rs) } rest

/-- core.py line 124: `lock_filename = input_filename.replace(".in", ".txt")`. -/
def deriveLockFilename (input_filename : String) : String :=
  pyReplace input_filename ".in" ".txt"

/-- The inner writer loop (core.py lines 135-145) over one requirement's
dependency list: each dependency is lowercased; a dependency not yet in
the seen-package registry `package_set` is added to it and written as an
active line, one already present is written commented out (`#` in front).
Returns the written lines and the updated registry (membership is all
that matters for the Python `set`; new members are consed on). -/
def writeDeps (package_set : List String) : List String → List String × List String
  | [] => ([], package_set)
  | d :: rest =>
    let dep := pyLower d
    if dep ∈ package_set then
      (("#" ++ dep) :: (writeDeps package_set rest).1, (writeDeps package_set rest).2)
    else
      (dep :: (writeDeps (dep :: package_set) rest).1, (writeDeps (dep :: package_set) rest).2)

/-- The outer writer loop (core.py lines 133-146), one list of lines per
requirement block: the `# requirement '<line>' depends on:` comment, the
dependency lines, and the trailing blank line, threading the
seen-package registry through the blocks. -/
def reqBlocks (package_set : List String) : Deps → List (List String)
  | [] => []
  | (req, ds) :: rest =>
    (("# requirement '" ++ req ++ "' depends on:") :: ((writeDeps package_set ds).1 ++ [""]))
      :: reqBlocks (writeDeps package_set ds).2 rest

/-- All lines written by the requirement-block loop. -/
def writeBlocks (package_set : List String) (d : Deps) : List String :=
  (reqBlocks package_set d).flatten

/-- The full sequence of lines written to the lock file (core.py lines
126-146): the header naming the lock file, the provenance comment plus a
blank line, each directive followed by a blank line, then the requirement
blocks, starting from an empty seen-package registry (`package_set =
set([])`, line 121, a local variable of the call). -/
def lockLines (lock_filename input_filename : String) (st : PundlerSt) : List String :=
  ["# " ++ lock_filename,
   "# this file generated from '" ++ input_filename ++ "' by pundler:",
   ""]
  ++ st.args.flatMap (fun a => [a, ""])
  ++ writeBlocks [] st.deps

/-- Lines to file contents: every `output.write` in the writer ends its
payload with a newline. -/
def renderLines (ls : List String) : String :=
  String.join (ls.map fun l => l ++ "\n")

/-- `Pundler.process_requirements` (core.py lines 85-146) on an engine
state `st`: run the resolution loop over the stripped lines of the input
file; on success derive the lock filename when none was passed and write
the lock file.  Returns the engine state after the call together with the
text written.  A resolver failure propagates (nothing is written). -/
def processRequirements (resolve : Resolver) (input_filename : String)
    (rawLines : List String) (lockName? : Option String) (st : PundlerSt) :
    Except Unit (PundlerSt × String) :=
  match processLines resolve 0 st (getRequirements rawLines) with
  | .error e => .error e
  | .ok st' =>
    let lock_filename :=
      match lockName? with
      | none => deriveLockFilename input_filename
      | some n => n
    .ok (st', renderLines (lockLines lock_filename input_filename st'))

/-- Just the text a `process_requirements` call writes, `none` on failure. -/
def runOutput (resolve : Resolver) (input_filename : String)
    (rawLines : List String) (lockName? : Option String) (st : PundlerSt) :
    Option String :=
  match processRequirements resolve input_filename rawLines lockName? st with
  | .error _ => none
  | .ok (_, out) => some out

/-- The effect of one lock run on the lock file on disk: the file is
opened for writing only after the whole resolution loop has succeeded
(core.py line 126 comes after the loop of lines 93-119), so on failure the
previous contents `prev` survive, and on success they are replaced. -/
def lockFileAfterRun (resolve : Resolver) (input_filename : String)
    (rawLines : List String) (lockName? : Option String)
    (prev : Option String) : Option String :=
  match processRequirements resolve input_filename rawLines lockName? initSt with
  | .error _ => prev
  | .ok (_, out) => some out

/-- The driver loop of `install` (core.py lines 161-165): for each input
file a fresh `Pundler` instance is constructed and `process_requirements`
is run on it.  Each file is a name paired with its raw lines. -/
def installRun (resolve : Resolver) (files : List (String × List String)) :
    List (Option String) :=
  files.map fun f => runOutput resolve f.1 f.2 none initSt

/-- Modelled from the spec's wording for comparison with the engine
(refinement of the ordering claims): the non-directive lines of the input
in first-seen order, each line kept only at its first occurrence. -/
def specFirstSeenAux (acc : List String) : List String → List String
  | [] => acc
  | l :: rest =>
    if pyStartsWith l "-" then specFirstSeenAux acc rest
    else if l ∈ acc then specFirstSeenAux acc rest
    else specFirstSeenAux (acc ++ [l]) rest

/-- The requirement lines of the input in first-seen input order (spec
§3/§8 wording). -/
def specFirstSeenRequirements (lines : List String) : List String :=
  specFirstSeenAux [] lines

/-! ### Basic facts about the string primitives -/

theorem data_append (a b : String) : (a ++ b).data = a.data ++ b.data := rfl

theorem mk_data (s : String) : String.mk s.data = s := rfl

theorem isPre_refl : ∀ l : List Char, isPre l l = true
  | [] => rfl
  | a :: l => by simp [isPre, isPre_refl l]

theorem isPre_append_of_le (u : List Char) :
    ∀ pat l : List Char, pat.length ≤ l.length → isPre pat (l ++ u) = isPre pat l
  | [], _, _ => rfl
  | _ :: _, [], h => by simp at h
  | a :: ps, b :: ls, h => by
    show (decide (a = b) && isPre ps (ls ++ u)) = (decide (a = b) && isPre ps ls)
    rw [isPre_append_of_le u ps ls (by simpa using h)]

theorem head_of_pyStartsWith_dash (a : String) (h : pyStartsWith a "-" = true) :
    a.data.head? = some '-' := by
  unfold pyStartsWith at h
  match ha : a.data with
  | [] => rw [ha] at h; simp [isPre] at h
  | c :: rest =>
    rw [ha] at h
    simp only [isPre, Bool.and_eq_true, decide_eq_true_eq] at h
    simp only [List.head?_cons, Option.some.injEq]
    exact h.1.symm

theorem occursIn_false_cons {pat : List Char} {c : Char} {rest : List Char}
    (h : occursIn pat (c :: rest) = false) :
    isPre pat (c :: rest) = false ∧ occursIn pat rest = false := by
  simpa [occursIn] using h

/-- Skipping `t.length` characters just discards `t`. -/
theorem replaceCore_skip (pat rep : List Char) :
    ∀ t u : List Char, replaceCore pat rep (t ++ u) t.length = replaceCore pat rep u 0
  | [], _ => rfl
  | c :: t, u => by
    simp only [List.cons_append, List.length_cons, replaceCore]
    exact replaceCore_skip pat rep t u

/-- If `pat` never occurs in `s`, replacement leaves `s` unchanged. -/
theorem replaceCore_of_not_occursIn (pat rep : List Char) :
    ∀ s : List Char, occursIn pat s = false → replaceCore pat rep s 0 = s
  | [], _ => rfl
  | c :: rest, h => by
    obtain ⟨h1, h2⟩ := occursIn_false_cons h
    simp only [replaceCore, h1, Bool.false_eq_true, and_false, if_neg, ite_false,
      not_false_eq_true]
    rw [replaceCore_of_not_occursIn pat rep rest h2]

/-- If `pat` does not occur in `s` and cannot match straddling the boundary,
replacing in `s ++ pat` rewrites exactly the trailing occurrence. -/
theorem replaceCore_append_pat (pat rep : List Char) (hne : pat ≠ [])
    (hov : ∀ (a : Char) (t : List Char), t.length + 1 < pat.length →
      isPre pat ((a :: t) ++ pat) = false) :
    ∀ s : List Char, occursIn pat s = false →
      replaceCore pat rep (s ++ pat) 0 = s ++ rep
  | [], _ => by
    match hp : pat, hne with
    | c :: ps, _ =>
      simp only [List.nil_append, replaceCore, isPre_refl, and_true, ne_eq,
        reduceCtorEq, not_false_eq_true, if_pos, true_and, ite_true]
      have hlen : (c :: ps).length - 1 = ps.length := by simp
      rw [hlen]
      have hskip := replaceCore_skip (c :: ps) rep ps []
      simp only [List.append_nil] at hskip
      rw [hskip]
      simp [replaceCore]
  | c :: s', h => by
    obtain ⟨h1, h2⟩ := occursIn_false_cons h
    have hpre : isPre pat ((c :: s') ++ pat) = false := by
      by_cases hlen : pat.length ≤ (c :: s').length
      · rw [isPre_append_of_le pat pat (c :: s') hlen]
        exact h1
      · exact hov c s' (by simpa using Nat.lt_of_not_le hlen)
    simp only [List.cons_append, replaceCore]
    rw [if_neg (by simp only [List.cons_append] at hpre; simp [hpre])]
    show c :: replaceCore pat rep (s' ++ pat) 0 = c :: (s' ++ rep)
    rw [replaceCore_append_pat pat rep hne hov s' h2]

/-- The pattern `".in"` cannot match a run that straddles the boundary of
`t ++ ".in"`: no proper nonempty tail of a match can restart `".in"`. -/
theorem dotin_no_overlap (a : Char) (t : List Char) (ht : t.length + 1 < 3) :
    isPre ".in".data ((a :: t) ++ ".in".data) = false := by
  match t, ht with
  | [], _ =>
    show isPre ['.', 'i', 'n'] [a, '.', 'i', 'n'] = false
    simp [isPre]
  | [b], _ =>
    show isPre ['.', 'i', 'n'] [a, b, '.', 'i', 'n'] = false
    simp [isPre]

/-- A path in which `".in"` does not occur at all passes through
`input_filename.replace(".in", ".txt")` unchanged. -/
theorem deriveLockFilename_of_no_dotin (s : String)
    (h : occursIn ".in".data s.data = false) : deriveLockFilename s = s := by
  unfold deriveLockFilename pyReplace
  rw [replaceCore_of_not_occursIn _ _ _ h]

/-- A path of the form `s ++ ".in"`, where `".in"` does not occur in `s`,
is rewritten to `s ++ ".txt"` by `input_filename.replace(".in", ".txt")`. -/
theorem deriveLockFilename_append_dotin (s : String)
    (h : occursIn ".in".data s.data = false) :
    deriveLockFilename (s ++ ".in") = s ++ ".txt" := by
  unfold deriveLockFilename pyReplace
  rw [data_append]
  rw [replaceCore_append_pat ".in".data ".txt".data (by simp)
    (fun a t ht => dotin_no_overlap a t (by simpa using ht)) s.data h]
  rfl

/-! ### `OrderedDict` assignment -/

theorem odInsert_keys (k : String) (v : List String) :
    ∀ d : Deps, (odInsert d k v).map Prod.fst =
      if k ∈ d.map Prod.fst then d.map Prod.fst else d.map Prod.fst ++ [k]
  | [] => by simp [odInsert]
  | (k', v') :: rest => by
    by_cases hk : k' = k
    · subst hk
      simp [odInsert]
    · simp only [odInsert, if_neg hk, List.map_cons, odInsert_keys k v rest,
        List.mem_cons]
      by_cases hm : k ∈ rest.map Prod.fst
      · simp [hm, Ne.symm hk]
      · simp [hm, Ne.symm hk]

theorem lookup_odInsert_self (k : String) (v : List String) :
    ∀ d : Deps, List.lookup k (odInsert d k v) = some v
  | [] => by simp [odInsert, List.lookup]
  | (k', v') :: rest => by
    by_cases hk : k' = k
    · subst hk
      simp [odInsert, List.lookup]
    · simp [odInsert, hk, List.lookup, beq_false_of_ne (fun h => hk h.symm),
        lookup_odInsert_self k v rest]

theorem lookup_odInsert_ne (k k' : String) (v : List String) (hne : k' ≠ k) :
    ∀ d : Deps, List.lookup k' (odInsert d k v) = List.lookup k' d
  | [] => by simp [odInsert, List.lookup, beq_false_of_ne hne]
  | (k'', v'') :: rest => by
    by_cases hk : k'' = k
    · subst hk
      simp [odInsert, List.lookup, beq_false_of_ne hne]
    · simp [odInsert, hk, List.lookup, lookup_odInsert_ne k k' v hne rest]

theorem odInsert_odInsert (k : String) (v₁ v₂ : List String) :
    ∀ d : Deps, odInsert (odInsert d k v₁) k v₂ = odInsert d k v₂
  | [] => by simp [odInsert]
  | (k', v') :: rest => by
    by_cases hk : k' = k
    · subst hk
      simp [odInsert]
    · simp [odInsert, hk, odInsert_odInsert k v₁ v₂ rest]

theorem nodupKeys_odInsert (k : String) (v : List String) (d : Deps)
    (h : (d.map Prod.fst).Nodup) : ((odInsert d k v).map Prod.fst).Nodup := by
  rw [odInsert_keys]
  by_cases hm : k ∈ d.map Prod.fst
  · simpa [hm]
  · rw [if_neg hm]
    refine List.Nodup.append h (List.nodup_singleton k) ?_
    intro a ha hak
    simp only [List.mem_singleton] at hak
    exact hm (hak ▸ ha)

theorem mem_keys_of_lookup (k : String) (v : List String) :
    ∀ d : Deps, List.lookup k d = some v → k ∈ d.map Prod.fst
  | [], h => by simp [List.lookup] at h
  | (k', v') :: rest, h => by
    by_cases hk : k == k'
    · simp [eq_of_beq hk]
    · simp only [List.lookup, hk] at h
      simpa using Or.inr (mem_keys_of_lookup k v rest h)

/-! ### The resolution loop -/

theorem processLines_append (resolve : Resolver) :
    ∀ (l₁ l₂ : List String) (i : Nat) (st : PundlerSt),
      processLines resolve i st (l₁ ++ l₂) =
        match processLines resolve i st l₁ with
        | .error e => .error e
        | .ok st₁ => processLines resolve (i + l₁.length) st₁ l₂
  | [], l₂, i, st => by simp [processLines]
  | line :: l₁, l₂, i, st => by
    simp only [List.cons_append, processLines]
    by_cases hd : pyStartsWith line "-" = true
    · rw [if_pos hd, if_pos hd]
      simp only [List.append_eq]
      rw [processLines_append resolve l₁ l₂ (i + 1) _]
      have harith : i + 1 + l₁.length = i + (l₁.length + 1) := by omega
      cases processLines resolve (i + 1) { st with args := st.args ++ [line] } l₁ <;>
        simp [harith]
    · rw [if_neg hd, if_neg hd]
      cases hres : resolve i line with
      | error e => simp
      | ok rs =>
        simp only [List.append_eq]
        rw [processLines_append resolve l₁ l₂ (i + 1) _]
        have harith : i + 1 + l₁.length = i + (l₁.length + 1) := by omega
        cases processLines resolve (i + 1)
            { deps := odInsert (odInsert st.deps line []) line (collectDeps rs),
              args := st.args } l₁ <;>
          simp [harith]

theorem processLines_args (resolve : Resolver) :
    ∀ (lines : List String) (i : Nat) (st st' : PundlerSt),
      processLines resolve i st lines = .ok st' →
      st'.args = st.args ++ lines.filter (fun l => pyStartsWith l "-")
  | [], i, st, st', h => by
    simp only [processLines, Except.ok.injEq] at h
    simp [← h]
  | line :: rest, i, st, st', h => by
    simp only [processLines] at h
    by_cases hd : pyStartsWith line "-" = true
    · rw [if_pos hd] at h
      have ih := processLines_args resolve rest (i + 1) _ st' h
      simp only at ih
      rw [ih]
      simp [List.filter_cons, hd]
    · rw [if_neg hd] at h
      cases hres : resolve i line with
      | error e => rw [hres] at h; cases h
      | ok rs =>
        rw [hres] at h
        have ih := processLines_args resolve rest (i + 1) _ st' h
        simp only at ih
        rw [ih]
        simp [List.filter_cons, hd]

theorem processLines_keys (resolve : Resolver) :
    ∀ (lines : List String) (i : Nat) (st st' : PundlerSt),
      processLines resolve i st lines = .ok st' →
      st'.deps.map Prod.fst = specFirstSeenAux (st.deps.map Prod.fst) lines
  | [], i, st, st', h => by
    simp only [processLines, Except.ok.injEq] at h
    simp [specFirstSeenAux, ← h]
  | line :: rest, i, st, st', h => by
    simp only [processLines] at h
    by_cases hd : pyStartsWith line "-" = true
    · rw [if_pos hd] at h
      have ih := processLines_keys resolve rest (i + 1) _ st' h
      simp only at ih
      rw [ih]
      simp [specFirstSeenAux, hd]
    · rw [if_neg hd] at h
      cases hres : resolve i line with
      | error e => rw [hres] at h; cases h
      | ok rs =>
        rw [hres] at h
        have ih := processLines_keys resolve rest (i + 1) _ st' h
        simp only at ih
        rw [ih]
        simp only [odInsert_odInsert, odInsert_keys]
        simp only [specFirstSeenAux, hd, Bool.false_eq_true, if_false, ite_false]
        by_cases hm : line ∈ st.deps.map Prod.fst
        · rw [if_pos hm, if_pos hm]
        · rw [if_neg hm, if_neg hm]

theorem processLines_nodupKeys (resolve : Resolver) :
    ∀ (lines : List String) (i : Nat) (st st' : PundlerSt),
      (st.deps.map Prod.fst).Nodup →
      processLines resolve i st lines = .ok st' →
      (st'.deps.map Prod.fst).Nodup
  | [], i, st, st', hnd, h => by
    simp only [processLines, Except.ok.injEq] at h
    rwa [← h]
  | line :: rest, i, st, st', hnd, h => by
    simp only [processLines] at h
    by_cases hd : pyStartsWith line "-" = true
    · rw [if_pos hd] at h
      exact processLines_nodupKeys resolve rest (i + 1)
        { st with args := st.args ++ [line] } st' hnd h
    · rw [if_neg hd] at h
      cases hres : resolve i line with
      | error e => rw [hres] at h; cases h
      | ok rs =>
        rw [hres] at h
        exact processLines_nodupKeys resolve rest (i + 1) _ st'
          (nodupKeys_odInsert _ _ _ (nodupKeys_odInsert _ _ _ hnd)) h

theorem processLines_lookup_stable (resolve : Resolver) (key : String) :
    ∀ (lines : List String) (i : Nat) (st st' : PundlerSt),
      key ∉ lines → processLines resolve i st lines = .ok st' →
      List.lookup key st'.deps = List.lookup key st.deps
  | [], i, st, st', _, h => by
    simp only [processLines, Except.ok.injEq] at h
    rw [← h]
  | line :: rest, i, st, st', hkey, h => by
    have hne : key ≠ line := fun hh => hkey (hh ▸ List.mem_cons_self line rest)
    have hrest : key ∉ rest := fun hh => hkey (List.mem_cons_of_mem line hh)
    simp only [processLines] at h
    by_cases hd : pyStartsWith line "-" = true
    · rw [if_pos hd] at h
      exact processLines_lookup_stable resolve key rest (i + 1)
        { st with args := st.args ++ [line] } st' hrest h
    · rw [if_neg hd] at h
      cases hres : resolve i line with
      | error e => rw [hres] at h; cases h
      | ok rs =>
        rw [hres] at h
        have := processLines_lookup_stable resolve key rest (i + 1) _ st' hrest h
        simp only at this
        rw [this, lookup_odInsert_ne _ _ _ hne, lookup_odInsert_ne _ _ _ hne]

/-! ### The lock writer -/

theorem ne_of_hash (p : String) (hp : p.data.head? ≠ some '#') (s : String) :
    ("#" ++ s) ≠ p := by
  intro h
  apply hp
  rw [← h]
  rfl

theorem reqHeader_ne (p : String) (hp : p.data.head? ≠ some '#') (req : String) :
    ("# requirement '" ++ req ++ "' depends on:") ≠ p := by
  intro h
  apply hp
  rw [← h]
  rfl

theorem writeDeps_seen (p : String) :
    ∀ (ds seen : List String),
      (p ∈ (writeDeps seen ds).2 ↔ p ∈ seen ∨ p ∈ ds.map pyLower)
  | [], seen => by simp [writeDeps]
  | d :: rest, seen => by
    by_cases hm : pyLower d ∈ seen
    · simp only [writeDeps, if_pos hm]
      rw [writeDeps_seen p rest seen]
      simp only [List.map_cons, List.mem_cons]
      by_cases hpd : p = pyLower d
      · subst hpd
        simp [hm]
      · tauto
    · simp only [writeDeps, if_neg hm]
      rw [writeDeps_seen p rest (pyLower d :: seen)]
      simp only [List.map_cons, List.mem_cons]
      tauto

theorem writeDeps_count (p : String) (hp : p.data.head? ≠ some '#') :
    ∀ (ds seen : List String),
      (writeDeps seen ds).1.count p =
        if p ∈ ds.map pyLower ∧ p ∉ seen then 1 else 0
  | [], seen => by simp [writeDeps]
  | d :: rest, seen => by
    by_cases hm : pyLower d ∈ seen
    · simp only [writeDeps, if_pos hm, List.count_cons,
        writeDeps_count p hp rest seen]
      have h0 : ¬ p = "#" ++ pyLower d := fun h => ne_of_hash p hp (pyLower d) h.symm
      by_cases hpd : p = pyLower d
      · subst hpd
        simp [hm, h0]
        exact ne_of_hash _ hp _
      · simp [hpd, h0]
        exact ne_of_hash p hp _
    · simp only [writeDeps, if_neg hm, List.count_cons,
        writeDeps_count p hp rest (pyLower d :: seen)]
      by_cases hpd : p = pyLower d
      · subst hpd
        simp [hm]
      · simp [hpd, List.mem_cons]
        exact fun h => hpd h.symm

theorem writeDeps_active_mem (p : String) :
    ∀ (ds seen : List String), p ∈ ds.map pyLower → p ∉ seen →
      p ∈ (writeDeps seen ds).1
  | d :: rest, seen, hmem, hseen => by
    by_cases hpd : p = pyLower d
    · have hm : pyLower d ∉ seen := fun hh => hseen (hpd ▸ hh)
      simp only [writeDeps, if_neg hm]
      exact hpd ▸ List.mem_cons_self _ _
    · have hrest : p ∈ rest.map pyLower := by
        rcases List.mem_cons.mp hmem with h | h
        · exact absurd h hpd
        · exact h
      by_cases hm : pyLower d ∈ seen
      · simp only [writeDeps, if_pos hm]
        exact List.mem_cons_of_mem _ (writeDeps_active_mem p rest seen hrest hseen)
      · simp only [writeDeps, if_neg hm]
        exact List.mem_cons_of_mem _ (writeDeps_active_mem p rest (pyLower d :: seen)
          hrest (by simp [hpd, hseen]))

theorem writeDeps_commented_mem (p : String) :
    ∀ (ds seen : List String), p ∈ seen → p ∈ ds.map pyLower →
      ("#" ++ p) ∈ (writeDeps seen ds).1
  | d :: rest, seen, hseen, hmem => by
    by_cases hpd : p = pyLower d
    · have hm : pyLower d ∈ seen := hpd ▸ hseen
      simp only [writeDeps, if_pos hm]
      exact hpd ▸ List.mem_cons_self _ _
    · have hrest : p ∈ rest.map pyLower := by
        rcases List.mem_cons.mp hmem with h | h
        · exact absurd h hpd
        · exact h
      by_cases hm : pyLower d ∈ seen
      · simp only [writeDeps, if_pos hm]
        exact List.mem_cons_of_mem _ (writeDeps_commented_mem p rest seen hseen hrest)
      · simp only [writeDeps, if_neg hm]
        exact List.mem_cons_of_mem _ (writeDeps_commented_mem p rest (pyLower d :: seen)
          (List.mem_cons_of_mem _ hseen) hrest)

theorem reqBlocks_length : ∀ (d : Deps) (seen : List String),
    (reqBlocks seen d).length = d.length
  | [], _ => rfl
  | (req, ds) :: rest, seen => by
    simp [reqBlocks, reqBlocks_length rest]

theorem writeBlocks_count (p : String) (hp : p.data.head? ≠ some '#')
    (hne : p ≠ "") :
    ∀ (d : Deps) (seen : List String),
      (writeBlocks seen d).count p =
        if (∃ e ∈ d, p ∈ e.2.map pyLower) ∧ p ∉ seen then 1 else 0
  | [], seen => by simp [writeBlocks, reqBlocks]
  | (req, ds) :: rest, seen => by
    simp only [writeBlocks, reqBlocks, List.flatten_cons, List.count_cons,
      List.count_append]
    rw [writeDeps_count p hp ds seen]
    have hjoin := writeBlocks_count p hp hne rest (writeDeps seen ds).2
    simp only [writeBlocks] at hjoin
    rw [hjoin]
    have hb1 : ¬ ("" : String) = p := fun h => hne h.symm
    have hb2 : ¬ ("# requirement '" ++ req ++ "' depends on:") = p :=
      reqHeader_ne p hp req
    simp only [List.count_nil, beq_iff_eq, hb1, hb2, if_false, ite_false,
      Nat.add_zero, Nat.zero_add, List.mem_cons]
    by_cases h2 : p ∈ seen
    · have h2' : p ∈ (writeDeps seen ds).2 := (writeDeps_seen p ds seen).mpr (Or.inl h2)
      simp [h2, h2']
    · by_cases h1 : p ∈ ds.map pyLower
      · have h2' : p ∈ (writeDeps seen ds).2 :=
          (writeDeps_seen p ds seen).mpr (Or.inr h1)
        have hex : ∃ e ∈ (req, ds) :: rest, p ∈ e.2.map pyLower :=
          ⟨(req, ds), List.mem_cons_self _ _, h1⟩
        simp [h1, h2, h2']
        rw [if_pos ⟨hex, h2⟩]
      · have h2' : p ∉ (writeDeps seen ds).2 := fun hh => by
          rcases (writeDeps_seen p ds seen).mp hh with h | h
          · exact h2 h
          · exact h1 h
        have hiff : (∃ e ∈ (req, ds) :: rest, p ∈ e.2.map pyLower) ↔
            (∃ e ∈ rest, p ∈ e.2.map pyLower) := by
          constructor
          · rintro ⟨e, he, hpe⟩
            rcases List.mem_cons.mp he with rfl | he'
            · exact absurd hpe h1
            · exact ⟨e, he', hpe⟩
          · rintro ⟨e, he, hpe⟩
            exact ⟨e, List.mem_cons_of_mem _ he, hpe⟩
        simp only [hiff]
        simp only [h1, false_and, if_false, ite_false, Nat.zero_add]
        by_cases h3 : ∃ e ∈ rest, p ∈ List.map pyLower e.2
        · rw [if_pos ⟨h3, h2'⟩, if_pos ⟨h3, h2⟩]
        · rw [if_neg (fun hc => h3 hc.1), if_neg (fun hc => h3 hc.1)]

theorem reqBlocks_first_active (p : String) :
    ∀ (d : Deps) (seen : List String) (i : Nat), i < d.length → p ∉ seen →
      p ∈ ((d.getD i ("", [])).2.map pyLower) →
      (∀ j, j < i → p ∉ ((d.getD j ("", [])).2.map pyLower)) →
      p ∈ (reqBlocks seen d).getD i []
  | (req, ds) :: rest, seen, 0, _, hseen, hmem, _ => by
    simp only [List.getD_cons_zero] at hmem
    simp only [reqBlocks, List.getD_cons_zero]
    exact List.mem_cons_of_mem _
      (List.mem_append_left _ (writeDeps_active_mem p ds seen hmem hseen))
  | (req, ds) :: rest, seen, i + 1, hi, hseen, hmem, hfirst => by
    have h0 : p ∉ ds.map pyLower := by
      have := hfirst 0 (Nat.succ_pos i)
      simpa using this
    have hseen' : p ∉ (writeDeps seen ds).2 := fun hh => by
      rcases (writeDeps_seen p ds seen).mp hh with h | h
      · exact hseen h
      · exact h0 h
    simp only [List.getD_cons_succ] at hmem
    simp only [reqBlocks, List.getD_cons_succ]
    exact reqBlocks_first_active p rest (writeDeps seen ds).2 i
      (by simpa using hi) hseen' hmem
      (fun j hj => by simpa using hfirst (j + 1) (by omega))

theorem reqBlocks_commented (p : String) :
    ∀ (d : Deps) (seen : List String) (j : Nat), j < d.length →
      (p ∈ seen ∨ ∃ i, i < j ∧ p ∈ ((d.getD i ("", [])).2.map pyLower)) →
      p ∈ ((d.getD j ("", [])).2.map pyLower) →
      ("#" ++ p) ∈ (reqBlocks seen d).getD j []
  | (req, ds) :: rest, seen, 0, _, hpre, hmem => by
    have hseen : p ∈ seen := by
      rcases hpre with h | ⟨i, hi, _⟩
      · exact h
      · omega
    simp only [List.getD_cons_zero] at hmem
    simp only [reqBlocks, List.getD_cons_zero]
    exact List.mem_cons_of_mem _
      (List.mem_append_left _ (writeDeps_commented_mem p ds seen hseen hmem))
  | (req, ds) :: rest, seen, j + 1, hj, hpre, hmem => by
    simp only [List.getD_cons_succ] at hmem
    simp only [reqBlocks, List.getD_cons_succ]
    refine reqBlocks_commented p rest (writeDeps seen ds).2 j (by simpa using hj)
      ?_ hmem
    rcases hpre with h | ⟨i, hi, hmem'⟩
    · exact Or.inl ((writeDeps_seen p ds seen).mpr (Or.inl h))
    · match i, hmem' with
      | 0, hmem' =>
        refine Or.inl ((writeDeps_seen p ds seen).mpr (Or.inr ?_))
        simpa using hmem'
      | i' + 1, hmem' =>
        exact Or.inr ⟨i', by omega, by simpa using hmem'⟩

/-- For a line `p` that is not blank, not `#`-initial and not `-`-initial,
the header lines and the directive region of the lock file contain no
occurrence of `p`, so counting `p` in the whole output is counting it in
the requirement blocks. -/
theorem lockLines_count (p : String) (hne : p ≠ "") (hp : p.data.head? ≠ some '#')
    (hd : p.data.head? ≠ some '-') (lock_filename input_filename : String)
    (st : PundlerSt) (hargs : ∀ a ∈ st.args, pyStartsWith a "-" = true) :
    (lockLines lock_filename input_filename st).count p =
      (writeBlocks [] st.deps).count p := by
  have hA : p ∉ (["# " ++ lock_filename,
      "# this file generated from '" ++ input_filename ++ "' by pundler:",
      ""] : List String) := by
    intro hmem
    rcases List.mem_cons.mp hmem with h | hmem
    · exact hp (by rw [h]; rfl)
    rcases List.mem_cons.mp hmem with h | hmem
    · exact hp (by rw [h]; rfl)
    rcases List.mem_cons.mp hmem with h | hmem
    · exact hne h
    · simp at hmem
  have hB : p ∉ st.args.flatMap (fun a => [a, ""]) := by
    intro hmem
    rcases List.mem_flatMap.mp hmem with ⟨a, ha, hpa⟩
    rcases List.mem_cons.mp hpa with h | h
    · subst h
      exact hd (head_of_pyStartsWith_dash _ (hargs _ ha))
    · simp only [List.mem_singleton] at h
      exact hne h
  unfold lockLines
  rw [List.count_append, List.count_append,
    List.count_eq_zero.mpr hA, List.count_eq_zero.mpr hB]
  omega

/-! ### The claims -/

/-- C1: for every lock run and every pinned package of the resolved state,
the lowercased `name==version` string appears as an active line exactly
once in the whole written output, it appears inside the block of the first
requirement (in insertion order) whose stored dependency set contains a
case variant of it, and inside the block of every subsequent requirement
whose dependency set also contains a case variant of it the commented form
`#name==version` appears.  The side conditions on `p` say that it is a
genuine pin line: non-blank and not starting with `#` or `-`. -/
theorem C1_active_pin_once_then_commented
    (resolve : Resolver) (rawLines : List String)
    (lock_filename input_filename : String) (st' : PundlerSt)
    (hrun : processLines resolve 0 initSt (getRequirements rawLines) = .ok st')
    (p : String) (hne : p ≠ "") (hp : p.data.head? ≠ some '#')
    (hd : p.data.head? ≠ some '-') (i : Nat) (hi : i < st'.deps.length)
    (hmem : p ∈ (st'.deps.getD i ("", [])).2.map pyLower)
    (hfirst : ∀ j, j < i → p ∉ (st'.deps.getD j ("", [])).2.map pyLower) :
    (lockLines lock_filename input_filename st').count p = 1
    ∧ p ∈ (reqBlocks [] st'.deps).getD i []
    ∧ ∀ j, i < j → j < st'.deps.length →
        p ∈ (st'.deps.getD j ("", [])).2.map pyLower →
        ("#" ++ p) ∈ (reqBlocks [] st'.deps).getD j [] := by
  have hargsEq := processLines_args resolve (getRequirements rawLines) 0 initSt st' hrun
  have hargs : ∀ a ∈ st'.args, pyStartsWith a "-" = true := by
    intro a ha
    rw [hargsEq] at ha
    simp only [initSt, List.nil_append] at ha
    exact (List.mem_filter.mp ha).2
  refine ⟨?_, ?_, ?_⟩
  · rw [lockLines_count p hne hp hd lock_filename input_filename st' hargs]
    rw [writeBlocks_count p hp hne st'.deps []]
    have hcond : (∃ e ∈ st'.deps, p ∈ e.2.map pyLower) ∧ p ∉ ([] : List String) := by
      refine ⟨⟨st'.deps.getD i ("", []), ?_, hmem⟩, by simp⟩
      rw [List.getD_eq_getElem _ _ hi]
      exact List.getElem_mem _
    rw [if_pos hcond]
  · exact reqBlocks_first_active p st'.deps [] i hi (by simp) hmem hfirst
  · intro j hij hj hmemj
    exact reqBlocks_commented p st'.deps [] j hj (Or.inr ⟨i, hij, hmem⟩) hmemj

/-- Witness for C1: two requirements both resolving to `click==7.0`; the
pin is active once, placed under the first requirement, and commented
under the second. -/
theorem C1_witness :
    (lockLines "r.txt" "r.in"
        (⟨[("a", ["click==7.0"]), ("b", ["click==7.0"])], []⟩ : PundlerSt)).count
        "click==7.0" = 1
    ∧ "click==7.0" ∈ (reqBlocks []
        ([("a", ["click==7.0"]), ("b", ["click==7.0"])] : Deps)).getD 0 []
    ∧ ∀ j, 0 < j →
        j < (⟨[("a", ["click==7.0"]), ("b", ["click==7.0"])], []⟩ : PundlerSt).deps.length →
        "click==7.0" ∈
          ((⟨[("a", ["click==7.0"]), ("b", ["click==7.0"])], []⟩ : PundlerSt).deps.getD j
            ("", [])).2.map pyLower →
        ("#" ++ "click==7.0") ∈ (reqBlocks []
          ([("a", ["click==7.0"]), ("b", ["click==7.0"])] : Deps)).getD j [] :=
  C1_active_pin_once_then_commented
    (fun _ _ => .ok ⟨[], [⟨"click", "7.0", false, false, false⟩]⟩) ["a", "b"]
    "r.txt" "r.in" ⟨[("a", ["click==7.0"]), ("b", ["click==7.0"])], []⟩
    (by rfl) "click==7.0" (by decide) (by decide) (by decide) 0 (by decide)
    (by decide) (fun j hj => absurd hj (Nat.not_lt_zero j))

/-- C2: if the resolver raises on a requirement line the run reaches, the
whole lock run for that file aborts: the output file is only opened after
the entire resolution loop has succeeded, so the previous lock file
contents survive unchanged. -/
theorem C2_failure_leaves_lock_file_untouched
    (resolve : Resolver) (input_filename : String) (rawLines : List String)
    (lockName? : Option String) (prev : Option String)
    (l₁ l₂ : List String) (line : String) (st₁ : PundlerSt)
    (hsplit : getRequirements rawLines = l₁ ++ line :: l₂)
    (hnd : pyStartsWith line "-" = false)
    (hok : processLines resolve 0 initSt l₁ = .ok st₁)
    (hfail : resolve l₁.length line = .error ()) :
    lockFileAfterRun resolve input_filename rawLines lockName? prev = prev := by
  have hcond : ¬ (pyStartsWith line "-" = true) := by simp [hnd]
  have hall : processLines resolve 0 initSt (getRequirements rawLines)
      = .error () := by
    rw [hsplit, processLines_append resolve l₁ (line :: l₂) 0 initSt, hok]
    simp only [processLines, if_neg hcond, Nat.zero_add, hfail]
  unfold lockFileAfterRun processRequirements
  rw [hall]

/-- Witness for C2 at the spec's scenario: the resolver raises on the
second requirement line and the pre-existing lock file contents `"OLD"`
survive. -/
theorem C2_witness :
    lockFileAfterRun
      (fun i _ => if i = 0 then .ok ⟨[], []⟩ else .error ()) "a.in"
      ["a", "b"] none (some "OLD") = some "OLD" :=
  C2_failure_leaves_lock_file_untouched
    (fun i _ => if i = 0 then .ok ⟨[], []⟩ else .error ()) "a.in" ["a", "b"]
    none (some "OLD") ["a"] [] "b" ⟨[("a", [])], []⟩
    (by rfl) (by rfl) (by rfl) (by rfl)

/-- C3 counterexample: `"a.ino"` has no trailing `".in"` suffix, yet the
derived output path is `"a.txto"`, not the unchanged input path, because
`input_filename.replace(".in", ".txt")` rewrites every occurrence of the
substring `".in"`, not only a trailing suffix. -/
theorem C3_counterexample :
    pyEndsWith "a.ino" ".in" = false
    ∧ deriveLockFilename "a.ino" = "a.txto"
    ∧ deriveLockFilename "a.ino" ≠ "a.ino" := by
  refine ⟨rfl, rfl, ?_⟩
  decide

/-- C3 amended: the output path is obtained by replacing every occurrence
of the substring `".in"` in the input path with `".txt"`; consequently a
path in which `".in"` does not occur at all passes through unchanged, and
a path made of a `".in"`-free stem followed by the `".in"` suffix maps to
the stem followed by `".txt"`. -/
theorem C3_amended_output_path (s : String)
    (h : occursIn ".in".data s.data = false) :
    deriveLockFilename s = s
    ∧ deriveLockFilename (s ++ ".in") = s ++ ".txt" :=
  ⟨deriveLockFilename_of_no_dotin s h, deriveLockFilename_append_dotin s h⟩

/-- Witness for C3 on the stem `"requirements"`. -/
theorem C3_witness :
    deriveLockFilename "requirements" = "requirements"
    ∧ deriveLockFilename ("requirements" ++ ".in") = "requirements" ++ ".txt" :=
  C3_amended_output_path "requirements" (by rfl)

/-- C4: in every generated lock file, the directive region consists of
exactly the `-`-initial input lines, verbatim and in original input order;
the requirement blocks are keyed by the requirement lines in first-seen
input order; and the written lines are the header, then every directive
(each followed by a blank line), then all requirement blocks — so every
directive line precedes every requirement block. -/
theorem C4_directives_before_blocks_in_order
    (resolve : Resolver) (rawLines : List String)
    (lock_filename input_filename : String) (st' : PundlerSt)
    (hrun : processLines resolve 0 initSt (getRequirements rawLines) = .ok st') :
    st'.args = (getRequirements rawLines).filter (fun l => pyStartsWith l "-")
    ∧ st'.deps.map Prod.fst = specFirstSeenRequirements (getRequirements rawLines)
    ∧ lockLines lock_filename input_filename st' =
        ["# " ++ lock_filename,
         "# this file generated from '" ++ input_filename ++ "' by pundler:", ""]
        ++ st'.args.flatMap (fun a => [a, ""])
        ++ writeBlocks [] st'.deps := by
  refine ⟨?_, ?_, rfl⟩
  · have h := processLines_args resolve (getRequirements rawLines) 0 initSt st' hrun
    simpa [initSt] using h
  · have h := processLines_keys resolve (getRequirements rawLines) 0 initSt st' hrun
    simpa [initSt, specFirstSeenRequirements] using h

/-- Witness for C4: one directive, one comment line and a duplicated
requirement line. -/
theorem C4_witness :
    (⟨[("b", ["click==7.0"])], ["-f url"]⟩ : PundlerSt).args
      = (getRequirements ["-f url", "b", "# c", "b"]).filter
          (fun l => pyStartsWith l "-")
    ∧ (⟨[("b", ["click==7.0"])], ["-f url"]⟩ : PundlerSt).deps.map Prod.fst
      = specFirstSeenRequirements (getRequirements ["-f url", "b", "# c", "b"])
    ∧ lockLines "r.txt" "r.in" (⟨[("b", ["click==7.0"])], ["-f url"]⟩ : PundlerSt) =
        ["# " ++ "r.txt",
         "# this file generated from '" ++ "r.in" ++ "' by pundler:", ""]
        ++ (⟨[("b", ["click==7.0"])], ["-f url"]⟩ : PundlerSt).args.flatMap
            (fun a => [a, ""])
        ++ writeBlocks [] (⟨[("b", ["click==7.0"])], ["-f url"]⟩ : PundlerSt).deps :=
  C4_directives_before_blocks_in_order
    (fun _ _ => .ok ⟨[], [⟨"click", "7.0", false, false, false⟩]⟩)
    ["-f url", "b", "# c", "b"] "r.txt" "r.in"
    ⟨[("b", ["click==7.0"])], ["-f url"]⟩ (by rfl)

/-- C5 counterexample: the engine stores dependency strings with the
resolver's original case — after resolving one line whose result carries
the name `Flask`, the stored dependency set holds `"Flask==1.0"`, which is
not lowercase.  (Lowercasing happens only at write time, line 136, not
before storage.) -/
theorem C5_counterexample :
    processLines
        (fun _ _ => .ok ⟨[], [⟨"Flask", "1.0", false, false, false⟩]⟩)
        0 initSt ["flask"]
      = .ok (⟨[("flask", ["Flask==1.0"])], []⟩ : PundlerSt)
    ∧ "Flask==1.0" ≠ pyLower "Flask==1.0" := by
  refine ⟨rfl, ?_⟩
  decide

/-- C5 amended: dependency strings are stored case-preserved and
lowercased at write time; deduplication operates on the lowercased
strings, so when an earlier and a later requirement both carry case
variants of the same pin, exactly one active lowercase pin line appears in
the whole output and the later requirement's block shows the suppressed
commented form. -/
theorem C5_case_variants_collapse
    (resolve : Resolver) (rawLines : List String)
    (lock_filename input_filename : String) (st' : PundlerSt)
    (hrun : processLines resolve 0 initSt (getRequirements rawLines) = .ok st')
    (p v₁ v₂ : String) (hne : p ≠ "") (hp : p.data.head? ≠ some '#')
    (hd : p.data.head? ≠ some '-') (i j : Nat) (hij : i < j)
    (hj : j < st'.deps.length)
    (h1 : v₁ ∈ (st'.deps.getD i ("", [])).2) (hv1 : pyLower v₁ = p)
    (h2 : v₂ ∈ (st'.deps.getD j ("", [])).2) (hv2 : pyLower v₂ = p) :
    (lockLines lock_filename input_filename st').count p = 1
    ∧ ("#" ++ p) ∈ (reqBlocks [] st'.deps).getD j [] := by
  have hargsEq := processLines_args resolve (getRequirements rawLines) 0 initSt st' hrun
  have hargs : ∀ a ∈ st'.args, pyStartsWith a "-" = true := by
    intro a ha
    rw [hargsEq] at ha
    simp only [initSt, List.nil_append] at ha
    exact (List.mem_filter.mp ha).2
  have hmi : p ∈ (st'.deps.getD i ("", [])).2.map pyLower :=
    hv1 ▸ List.mem_map_of_mem pyLower h1
  have hmj : p ∈ (st'.deps.getD j ("", [])).2.map pyLower :=
    hv2 ▸ List.mem_map_of_mem pyLower h2
  constructor
  · rw [lockLines_count p hne hp hd lock_filename input_filename st' hargs]
    rw [writeBlocks_count p hp hne st'.deps []]
    have hcond : (∃ e ∈ st'.deps, p ∈ e.2.map pyLower) ∧ p ∉ ([] : List String) := by
      refine ⟨⟨st'.deps.getD i ("", []), ?_, hmi⟩, by simp⟩
      rw [List.getD_eq_getElem _ _ (by omega : i < st'.deps.length)]
      exact List.getElem_mem _
    rw [if_pos hcond]
  · exact reqBlocks_commented p st'.deps [] j hj (Or.inr ⟨i, hij, hmi⟩) hmj

/-- Witness for C5: `Flask==1.0` stored for the first requirement and
`flask==1.0` for the second collapse to one active lowercase pin, with the
second occurrence suppressed. -/
theorem C5_witness :
    (lockLines "r.txt" "r.in"
        (⟨[("a", ["Flask==1.0"]), ("b", ["flask==1.0"])], []⟩ : PundlerSt)).count
        "flask==1.0" = 1
    ∧ ("#" ++ "flask==1.0") ∈ (reqBlocks []
        ([("a", ["Flask==1.0"]), ("b", ["flask==1.0"])] : Deps)).getD 1 [] :=
  C5_case_variants_collapse
    (fun i _ => if i = 0 then .ok ⟨[], [⟨"Flask", "1.0", false, false, false⟩]⟩
                else .ok ⟨[], [⟨"flask", "1.0", false, false, false⟩]⟩)
    ["a", "b"] "r.txt" "r.in"
    ⟨[("a", ["Flask==1.0"]), ("b", ["flask==1.0"])], []⟩ (by rfl)
    "flask==1.0" "Flask==1.0" "flask==1.0" (by decide) (by decide) (by decide)
    0 1 (by decide) (by decide) (by decide) (by decide) (by decide) (by decide)

/-- C6: the resolve-and-write pipeline is idempotent on the lock file:
running it a second time on the unchanged input with the unchanged
resolver leaves the lock file exactly as the first run left it (on
success both runs write the same bytes, on failure both leave the
previous contents). -/
theorem C6_idempotent (resolve : Resolver) (input_filename : String)
    (rawLines : List String) (lockName? : Option String) (prev : Option String) :
    lockFileAfterRun resolve input_filename rawLines lockName?
        (lockFileAfterRun resolve input_filename rawLines lockName? prev)
      = lockFileAfterRun resolve input_filename rawLines lockName? prev := by
  unfold lockFileAfterRun
  cases processRequirements resolve input_filename rawLines lockName? initSt <;> rfl

/-- C7 counterexample: `self.deps`/`self.args` are initialized in
`Pundler.__init__`, not per `process_requirements` call, so a directive
accumulated by a prior invocation on the same engine instance leaks into
the next invocation's output: after a run that saw the directive `-f x`,
running the same engine on an empty input produces different output than
a fresh engine on that same empty input. -/
theorem C7_counterexample :
    processLines (fun _ _ => .ok ⟨[], []⟩) 0 initSt (getRequirements ["-f x"])
      = .ok (⟨[], ["-f x"]⟩ : PundlerSt)
    ∧ runOutput (fun _ _ => .ok ⟨[], []⟩) "b.in" [] none ⟨[], ["-f x"]⟩
      ≠ runOutput (fun _ _ => .ok ⟨[], []⟩) "b.in" [] none initSt := by
  refine ⟨rfl, ?_⟩
  decide

/-- C7 amended: the seen-package registry (`package_set`) is a local
variable of each call and never shared across runs or files, and the
driver constructs a fresh engine per input file, so in a multi-file run
the i-th file's output is exactly that of a fresh single-file run on it,
unaffected by the other files; but `deps` and `args` live on the engine
instance and persist across invocations on the same instance — a later
invocation's directive list extends whatever the prior state held. -/
theorem C7_fresh_state_per_file
    (resolve : Resolver) (files : List (String × List String)) (i : Nat)
    (hi : i < files.length) :
    (installRun resolve files).getD i none
      = runOutput resolve (files.getD i ("", [])).1 (files.getD i ("", [])).2
          none initSt
    ∧ ∀ (st st' : PundlerSt) (lines : List String),
        processLines resolve 0 st lines = .ok st' →
        st'.args = st.args ++ lines.filter (fun l => pyStartsWith l "-") := by
  constructor
  · unfold installRun
    rw [List.getD_eq_getElem _ _ (by simpa using hi), List.getElem_map,
      List.getD_eq_getElem _ _ hi]
  · exact fun st st' lines h => processLines_args resolve lines 0 st st' h

/-- Witness for C7 with a two-file run. -/
theorem C7_witness :
    (installRun (fun _ _ => .ok ⟨[], []⟩) [("a.in", ["x"]), ("b.in", [])]).getD 0 none
      = runOutput (fun _ _ => .ok ⟨[], []⟩)
          (([("a.in", ["x"]), ("b.in", [])].getD 0 ("", [])).1)
          (([("a.in", ["x"]), ("b.in", [])].getD 0 ("", [])).2) none initSt
    ∧ ∀ (st st' : PundlerSt) (lines : List String),
        processLines (fun _ _ => .ok ⟨[], []⟩) 0 st lines = .ok st' →
        st'.args = st.args ++ lines.filter (fun l => pyStartsWith l "-") :=
  C7_fresh_state_per_file (fun _ _ => .ok ⟨[], []⟩)
    [("a.in", ["x"]), ("b.in", [])] 0 (by decide)

/-- C8: when a requirement line occurs more than once in an input file,
the resolution mapping keeps exactly one entry keyed by that line, and its
value is the dependency set collected from resolving the last occurrence
of the line (re-assignment overwrites, never appends).  Here
`l₁ ++ key :: l₂` with `key ∉ l₂` names the last occurrence; earlier
occurrences may appear anywhere in `l₁`. -/
theorem C8_last_write_wins
    (resolve : Resolver) (rawLines : List String) (st' : PundlerSt)
    (key : String) (l₁ l₂ : List String)
    (hsplit : getRequirements rawLines = l₁ ++ key :: l₂)
    (hnd : pyStartsWith key "-" = false)
    (hlast : key ∉ l₂)
    (hrun : processLines resolve 0 initSt (getRequirements rawLines) = .ok st') :
    (st'.deps.map Prod.fst).count key = 1
    ∧ ∃ rs, resolve l₁.length key = .ok rs
        ∧ List.lookup key st'.deps = some (collectDeps rs) := by
  have hcond : ¬ (pyStartsWith key "-" = true) := by simp [hnd]
  rw [hsplit] at hrun
  rw [processLines_append resolve l₁ (key :: l₂) 0 initSt] at hrun
  cases hok : processLines resolve 0 initSt l₁ with
  | error e => rw [hok] at hrun; cases hrun
  | ok st₁ =>
    rw [hok] at hrun
    simp only [processLines, if_neg hcond] at hrun
    cases hres : resolve (0 + l₁.length) key with
    | error e => rw [hres] at hrun; cases hrun
    | ok rs =>
      rw [hres] at hrun
      have hlook : List.lookup key st'.deps = some (collectDeps rs) := by
        rw [processLines_lookup_stable resolve key l₂ _ _ st' hlast hrun]
        simp only [odInsert_odInsert]
        exact lookup_odInsert_self key (collectDeps rs) st₁.deps
      have hnodup : (st'.deps.map Prod.fst).Nodup := by
        have h1 : ((initSt : PundlerSt).deps.map Prod.fst).Nodup := by
          simp [initSt]
        have h2 := processLines_nodupKeys resolve l₁ 0 initSt st₁ h1 hok
        exact processLines_nodupKeys resolve l₂ _ _ st'
          (nodupKeys_odInsert _ _ _ (nodupKeys_odInsert _ _ _ h2)) hrun
      refine ⟨?_, rs, by simpa using hres, hlook⟩
      have hmem : key ∈ st'.deps.map Prod.fst := mem_keys_of_lookup key _ _ hlook
      have hle := List.nodup_iff_count_le_one.mp hnodup key
      have hge : 0 < (st'.deps.map Prod.fst).count key :=
        List.count_pos_iff.mpr hmem
      omega

/-- Witness for C8: the line `"a"` occurs twice; the stored set is the one
resolved at the second occurrence (index 1), where the stateful resolver
answers `new==2.0` rather than the `old==1.0` of the first occurrence. -/
theorem C8_witness :
    ((⟨[("a", ["new==2.0"])], []⟩ : PundlerSt).deps.map Prod.fst).count "a" = 1
    ∧ ∃ rs,
        ((fun i _ =>
          if i = 0 then .ok ⟨[], [⟨"old", "1.0", false, false, false⟩]⟩
          else .ok ⟨[], [⟨"new", "2.0", false, false, false⟩]⟩ : Resolver))
          (["a"] : List String).length "a" = .ok rs
        ∧ List.lookup "a" (⟨[("a", ["new==2.0"])], []⟩ : PundlerSt).deps
          = some (collectDeps rs) :=
  C8_last_write_wins
    (fun i _ =>
      if i = 0 then .ok ⟨[], [⟨"old", "1.0", false, false, false⟩]⟩
      else .ok ⟨[], [⟨"new", "2.0", false, false, false⟩]⟩)
    ["a", "a"] ⟨[("a", ["new==2.0"])], []⟩ "a" ["a"] []
    (by rfl) (by rfl) (by decide) (by rfl)

/-- C9: an input line that is empty after stripping, or whose stripped
form starts with `#`, is skipped by the line source: it contributes no
line at all, so the whole `process_requirements` call behaves exactly as
if the line were absent — no directive entry, no requirement entry, no
resolver invocation. -/
theorem C9_comment_blank_skipped
    (raw : String) (rest : List String) (resolve : Resolver)
    (input_filename : String) (lockName? : Option String) (st : PundlerSt)
    (hskip : pyStartsWith (pyStrip raw) "#" = true ∨ pyStrip raw = "") :
    getRequirements (raw :: rest) = getRequirements rest
    ∧ processRequirements resolve input_filename (raw :: rest) lockName? st
      = processRequirements resolve input_filename rest lockName? st := by
  have h1 : getRequirements (raw :: rest) = getRequirements rest := by
    unfold getRequirements
    rw [List.filterMap_cons]
    rcases hskip with h | h
    · simp [h]
    · simp [h, String.isEmpty]
  exact ⟨h1, by unfold processRequirements; rw [h1]⟩

/-- Witness for C9: an indented comment line is skipped entirely. -/
theorem C9_witness :
    getRequirements ["  # note", "a"] = getRequirements ["a"]
    ∧ processRequirements (fun _ _ => .ok ⟨[], []⟩) "r.in" ["  # note", "a"]
        none initSt
      = processRequirements (fun _ _ => .ok ⟨[], []⟩) "r.in" ["a"] none initSt :=
  C9_comment_blank_skipped "  # note" ["a"] (fun _ _ => .ok ⟨[], []⟩)
    "r.in" none initSt (Or.inl (by rfl))

/-- C10: the dependency set stored for a resolved requirement line is the
set of `name==version` strings of (a) the packages of the resolution
result that are satisfied by an installed distribution carrying `PKG-INFO`
or `METADATA` metadata and (b) the freshly installed packages; a package
that is satisfied but has neither metadata file is silently omitted unless
some other package yields the same string. -/
theorem C10_dependency_set_contents
    (resolve : Resolver) (line : String) (rs : RequirementSet) (st' : PundlerSt)
    (hnd : pyStartsWith line "-" = false)
    (hres : resolve 0 line = .ok rs)
    (hrun : processLines resolve 0 initSt [line] = .ok st') :
    List.lookup line st'.deps = some (collectDeps rs)
    ∧ (∀ d : String, d ∈ collectDeps rs ↔
        ((∃ p ∈ rs.requirements,
            (p.satisfied_by && (p.has_pkg_info || p.has_metadata_file)) = true
            ∧ formatDep p = d)
         ∨ ∃ p ∈ rs.successfully_installed, formatDep p = d))
    ∧ ∀ q ∈ rs.requirements, q.satisfied_by = true → q.has_pkg_info = false →
        q.has_metadata_file = false →
        (∀ p ∈ rs.requirements,
          (p.satisfied_by && (p.has_pkg_info || p.has_metadata_file)) = true →
          formatDep p ≠ formatDep q) →
        (∀ p ∈ rs.successfully_installed, formatDep p ≠ formatDep q) →
        formatDep q ∉ collectDeps rs := by
  have hcond : ¬ (pyStartsWith line "-" = true) := by simp [hnd]
  have hchar : ∀ d : String, d ∈ collectDeps rs ↔
      ((∃ p ∈ rs.requirements,
          (p.satisfied_by && (p.has_pkg_info || p.has_metadata_file)) = true
          ∧ formatDep p = d)
       ∨ ∃ p ∈ rs.successfully_installed, formatDep p = d) := by
    intro d
    unfold collectDeps
    rw [List.mem_dedup, List.mem_append]
    constructor
    · intro hd
      rcases hd with h | h
      · rcases List.mem_map.mp h with ⟨p, hp, hfmt⟩
        have hpf := List.mem_filter.mp hp
        exact Or.inl ⟨p, hpf.1, by simpa using hpf.2, hfmt⟩
      · rcases List.mem_map.mp h with ⟨p, hp, hfmt⟩
        exact Or.inr ⟨p, hp, hfmt⟩
    · intro hd
      rcases hd with ⟨p, hp, hcnd, hfmt⟩ | ⟨p, hp, hfmt⟩
      · exact Or.inl (List.mem_map.mpr
          ⟨p, List.mem_filter.mpr ⟨hp, by simpa using hcnd⟩, hfmt⟩)
      · exact Or.inr (List.mem_map.mpr ⟨p, hp, hfmt⟩)
  refine ⟨?_, hchar, ?_⟩
  · simp only [processLines, if_neg hcond, hres] at hrun
    simp only [Except.ok.injEq] at hrun
    rw [← hrun]
    simp only [odInsert_odInsert]
    exact lookup_odInsert_self line (collectDeps rs) []
  · intro q hq _ _ _ hnone1 hnone2 hmem
    rcases (hchar (formatDep q)).mp hmem with ⟨p, hp, hcnd, hfmt⟩ | ⟨p, hp, hfmt⟩
    · exact hnone1 p hp hcnd hfmt
    · exact hnone2 p hp hfmt

/-- Witness for C10: `lost` is satisfied but has neither metadata file and
is omitted; `good` (satisfied with `PKG-INFO`) and `fresh` (freshly
installed) make up the stored set. -/
theorem C10_witness :
    List.lookup "a"
        (⟨[("a", ["good==2.0", "fresh==3.0"])], []⟩ : PundlerSt).deps
      = some (collectDeps
          ⟨[⟨"lost", "1.0", true, false, false⟩, ⟨"good", "2.0", true, true, false⟩],
           [⟨"fresh", "3.0", false, false, false⟩]⟩)
    ∧ (∀ d : String, d ∈ collectDeps
          (⟨[⟨"lost", "1.0", true, false, false⟩, ⟨"good", "2.0", true, true, false⟩],
            [⟨"fresh", "3.0", false, false, false⟩]⟩ : RequirementSet) ↔
        ((∃ p ∈ ([⟨"lost", "1.0", true, false, false⟩,
              ⟨"good", "2.0", true, true, false⟩] : List Package),
            (p.satisfied_by && (p.has_pkg_info || p.has_metadata_file)) = true
            ∧ formatDep p = d)
         ∨ ∃ p ∈ ([⟨"fresh", "3.0", false, false, false⟩] : List Package),
            formatDep p = d))
    ∧ ∀ q ∈ ([⟨"lost", "1.0", true, false, false⟩,
          ⟨"good", "2.0", true, true, false⟩] : List Package),
        q.satisfied_by = true → q.has_pkg_info = false →
        q.has_metadata_file = false →
        (∀ p ∈ ([⟨"lost", "1.0", true, false, false⟩,
            ⟨"good", "2.0", true, true, false⟩] : List Package),
          (p.satisfied_by && (p.has_pkg_info || p.has_metadata_file)) = true →
          formatDep p ≠ formatDep q) →
        (∀ p ∈ ([⟨"fresh", "3.0", false, false, false⟩] : List Package),
          formatDep p ≠ formatDep q) →
        formatDep q ∉ collectDeps
          (⟨[⟨"lost", "1.0", true, false, false⟩, ⟨"good", "2.0", true, true, false⟩],
            [⟨"fresh", "3.0", false, false, false⟩]⟩ : RequirementSet) :=
  C10_dependency_set_contents
    (fun _ _ => .ok ⟨[⟨"lost", "1.0", true, false, false⟩,
        ⟨"good", "2.0", true, true, false⟩],
      [⟨"fresh", "3.0", false, false, false⟩]⟩)
    "a"
    ⟨[⟨"lost", "1.0", true, false, false⟩, ⟨"good", "2.0", true, true, false⟩],
      [⟨"fresh", "3.0", false, false, false⟩]⟩
    ⟨[("a", ["good==2.0", "fresh==3.0"])], []⟩
    (by rfl) (by rfl) (by rfl)

end Pundler
